import Mathlib

/-!
Verification of the device discovery and reconciliation engine of a
smart-plug metrics exporter (source: `src/main.rs`).

Modelling conventions (shallow embedding):

* `SocketAddr` is modelled as `Endpoint := Nat`; identity is address equality.
* `Instant` is modelled as a plain `Nat`, counted in milliseconds, so
  `FORGET_TIMEOUT = 60 * 30 * 1000` and `RESPONSE_WAIT_TIME = 500` match
  `Duration::from_secs(60 * 30)` and `Duration::from_millis(500)`.
  `Instant::duration_since` saturates at zero, which is `Nat` subtraction.
* `f64` readings are modelled as `ℚ`.  Every concrete value appearing in the
  development (`118000 / 1000`, `1.5 * 1000 * 3600`, `500 / 1000 * 1000 * 3600`)
  is exactly representable and exactly computed in IEEE double precision, so
  the rational model agrees with the source at every input used here.
* `HashMap<K, V>` values are modelled as association lists `List (K × V)`;
  the hash-map well-formedness invariant (no duplicate keys) appears as a
  `Nodup` hypothesis on the list of first components where a theorem needs it.
  `HashMap::insert` is `kinsert` (replace or prepend), `HashMap::remove` is
  `kerase`, lookup is `klookup`.
* Network nondeterminism is passed in explicitly: the datagrams received by
  the broadcast loop are a list (in arrival order), and the outcome of each
  unicast recheck is an oracle `Endpoint → Option Response` (`none` models
  both a connect/read/write failure and a timeout, which the source treats
  identically).
-/

abbrev Endpoint := Nat


/-- Source: `const FORGET_TIMEOUT: Duration = Duration::from_secs(60 * 30)`,
in milliseconds. -/
def FORGET_TIMEOUT : Nat := 60 * 30 * 1000

/-- Source: `const RESPONSE_WAIT_TIME: Duration = Duration::from_millis(500)`. -/
def RESPONSE_WAIT_TIME : Nat := 500

/-- Source: struct `GetRealtimeResponse` — generation-1 hardware returns `f64`
values in base units, generation-2 hardware returns `u64` values in named
units; every field is optional on the wire. -/
structure GetRealtimeResponse where
  current : Option ℚ
  voltage : Option ℚ
  power : Option ℚ
  total : Option ℚ
  voltage_mv : Option Nat
  current_ma : Option Nat
  power_mw : Option Nat
  total_wh : Option Nat
deriving DecidableEq

/-- Source: `fn voltage(&self) -> f64 { self.voltage.unwrap_or_else(||
self.voltage_mv.unwrap_or_default() as f64 / 1000.0) }`. -/
def GetRealtimeResponse.voltageVal (r : GetRealtimeResponse) : ℚ :=
  r.voltage.getD ((r.voltage_mv.getD 0 : ℚ) / 1000)

/-- Source: `fn current(&self) -> f64 { self.current.unwrap_or_else(||
self.current_ma.unwrap_or_default() as f64 / 1000.0) }`. -/
def GetRealtimeResponse.currentVal (r : GetRealtimeResponse) : ℚ :=
  r.current.getD ((r.current_ma.getD 0 : ℚ) / 1000)

/-- Source: `fn power(&self) -> f64 { self.power.unwrap_or_else(||
self.power_mw.unwrap_or_default() as f64 / 1000.0) }`. -/
def GetRealtimeResponse.powerVal (r : GetRealtimeResponse) : ℚ :=
  r.power.getD ((r.power_mw.getD 0 : ℚ) / 1000)

/-- Source: `fn energy(&self) -> f64 { self.total.unwrap_or_else(||
self.total_wh.unwrap_or_default() as f64 / 1000.0) * 1000.0 * 3600.0 }`. -/
def GetRealtimeResponse.energy (r : GetRealtimeResponse) : ℚ :=
  r.total.getD ((r.total_wh.getD 0 : ℚ) / 1000) * 1000 * 3600

/-- A reading with generation-1 voltage present but exactly zero, and a
generation-2 voltage of 118000 mV (constructor field order: current, voltage,
power, total, voltage_mv, current_ma, power_mw, total_wh). -/
def rtC1 : GetRealtimeResponse := ⟨none, some 0, none, none, some 118000, none, none, none⟩

/-- A generation-1 reading whose cumulative total is 1.5 kWh. -/
def rtGen1Energy : GetRealtimeResponse := ⟨none, none, none, some (3 / 2), none, none, none, none⟩

/-- A generation-2 reading whose cumulative total is 500 Wh. -/
def rtGen2Energy : GetRealtimeResponse := ⟨none, none, none, none, none, none, none, some 500⟩

/-- C1 (counterexample): on `{voltage: 0.0, voltage_mv: 118000}` the source's
`voltage()` returns the generation-1 value `0.0`, not the claimed `118.0`:
`Option::unwrap_or_else` consults the generation-2 field only when the
generation-1 field is absent, never when it is present and zero. -/
theorem c1_zero_gen1_counterexample :
    rtC1.voltage = some 0 ∧ rtC1.voltage_mv = some 118000 ∧
    rtC1.voltageVal = 0 ∧ rtC1.voltageVal ≠ 118 := by
  refine ⟨rfl, rfl, rfl, ?_⟩
  decide

/-- C1 (amended): for each physical quantity the generation-1 field is
authoritative whenever it is present — including when it is exactly zero —
and the generation-2 scaled-integer field is consulted exactly when the
generation-1 field is absent (missing generation-2 defaults to zero). -/
theorem c1_gen1_present_is_authoritative (r : GetRealtimeResponse) :
    (∀ v, r.voltage = some v → r.voltageVal = v) ∧
    (r.voltage = none → r.voltageVal = (r.voltage_mv.getD 0 : ℚ) / 1000) ∧
    (∀ v, r.current = some v → r.currentVal = v) ∧
    (r.current = none → r.currentVal = (r.current_ma.getD 0 : ℚ) / 1000) ∧
    (∀ v, r.power = some v → r.powerVal = v) ∧
    (r.power = none → r.powerVal = (r.power_mw.getD 0 : ℚ) / 1000) ∧
    (∀ v, r.total = some v → r.energy = v * 1000 * 3600) ∧
    (r.total = none → r.energy = (r.total_wh.getD 0 : ℚ) / 1000 * 1000 * 3600) := by
  refine ⟨fun v h => ?_, fun h => ?_, fun v h => ?_, fun h => ?_,
    fun v h => ?_, fun h => ?_, fun v h => ?_, fun h => ?_⟩ <;>
    simp [GetRealtimeResponse.voltageVal, GetRealtimeResponse.currentVal,
      GetRealtimeResponse.powerVal, GetRealtimeResponse.energy, h]

/-- C1 witness: the amended rule applied to the concrete reading
`{voltage: 0.0, voltage_mv: 118000}` yields voltage `0.0`. -/
theorem c1_gen1_present_is_authoritative_witness : rtC1.voltageVal = 0 :=
  (c1_gen1_present_is_authoritative rtC1).1 0 rfl

/-- C7: a generation-1 total of 1.5 kWh normalizes to exactly 5400000 J
(`1.5 * 1000 * 3600`), and a generation-2 total of 500 Wh normalizes to
exactly 1800000 J (`500 / 1000 * 1000 * 3600 = 500 * 3600`): the two
unit-conversion formulas are distinct and not conflated. -/
theorem c7_energy_two_formulas :
    rtGen1Energy.energy = 5400000 ∧ rtGen2Energy.energy = 1800000 := by
  constructor <;> norm_num [GetRealtimeResponse.energy, rtGen1Energy, rtGen2Energy]

/-- Source: struct `GetSysinfoResponse` with fields `alias` and
`device_id` (wire name `deviceId`). -/
structure GetSysinfoResponse where
  «alias» : String
  device_id : String
deriving DecidableEq

/-- Source: struct `SystemResponse`. -/
structure SystemResponse where
  get_sysinfo : GetSysinfoResponse
deriving DecidableEq

/-- Source: struct `EmeterResponse`; `get_realtime` is optional on the wire. -/
structure EmeterResponse where
  get_realtime : Option GetRealtimeResponse
deriving DecidableEq

/-- Source: struct `Response`. -/
structure Response where
  system : SystemResponse
  emeter : EmeterResponse
deriving DecidableEq

/-- Lookup in an association list, models `HashMap::get`/`HashMap::remove`'s
found value. -/
def klookup (e : Endpoint) : List (Endpoint × α) → Option α
  | [] => none
  | p :: rest => if p.1 = e then some p.2 else klookup e rest

/-- Removal of a key, models `HashMap::remove`'s effect on the map. -/
def kerase (e : Endpoint) : List (Endpoint × α) → List (Endpoint × α)
  | [] => []
  | p :: rest => if p.1 = e then kerase e rest else p :: kerase e rest

/-- Insertion of a key, models `HashMap::insert` (replaces any existing
entry for the key). -/
def kinsert (l : List (Endpoint × α)) (e : Endpoint) (v : α) : List (Endpoint × α) :=
  (e, v) :: kerase e l

theorem mem_kerase {l : List (Endpoint × α)} {p : Endpoint × α} {e : Endpoint} :
    p ∈ kerase e l ↔ p ∈ l ∧ p.1 ≠ e := by
  induction l with
  | nil => simp [kerase]
  | cons q rest ih =>
    by_cases hq : q.1 = e
    · simp only [kerase, if_pos hq, ih, List.mem_cons]
      constructor
      · exact fun h => ⟨Or.inr h.1, h.2⟩
      · rintro ⟨h1 | h1, h2⟩
        · exact absurd (by rw [h1]; exact hq) h2
        · exact ⟨h1, h2⟩
    · simp only [kerase, if_neg hq, List.mem_cons, ih]
      constructor
      · rintro (h1 | ⟨h1, h2⟩)
        · exact ⟨Or.inl h1, by rw [h1]; exact hq⟩
        · exact ⟨Or.inr h1, h2⟩
      · rintro ⟨h1 | h1, h2⟩
        · exact Or.inl h1
        · exact Or.inr ⟨h1, h2⟩

theorem mem_kinsert {l : List (Endpoint × α)} {q : Endpoint × α} {e : Endpoint} {v : α} :
    q ∈ kinsert l e v ↔ q = (e, v) ∨ (q ∈ l ∧ q.1 ≠ e) := by
  simp [kinsert, mem_kerase]

theorem klookup_kerase_ne {l : List (Endpoint × α)} {a e : Endpoint} (h : a ≠ e) :
    klookup a (kerase e l) = klookup a l := by
  induction l with
  | nil => rfl
  | cons q rest ih =>
    by_cases hq : q.1 = e
    · have hqa : ¬ q.1 = a := fun hc => h (by rw [← hc, hq])
      simp only [kerase, if_pos hq, klookup, if_neg hqa]
      exact ih
    · by_cases hqa : q.1 = a
      · simp only [kerase, if_neg hq, klookup, if_pos hqa]
      · simp only [kerase, if_neg hq, klookup, if_neg hqa]
        exact ih

theorem klookup_eq_some_mem {l : List (Endpoint × α)} {a : Endpoint} {b : α}
    (h : klookup a l = some b) : (a, b) ∈ l := by
  induction l with
  | nil => simp [klookup] at h
  | cons q rest ih =>
    by_cases hq : q.1 = a
    · simp only [klookup, if_pos hq, Option.some.injEq] at h
      exact List.mem_cons.mpr (Or.inl (by rw [← hq, ← h]))
    · simp only [klookup, if_neg hq] at h
      exact List.mem_cons_of_mem _ (ih h)

theorem mem_klookup_of_nodup {l : List (Endpoint × α)} {a : Endpoint} {b : α}
    (hnd : (l.map Prod.fst).Nodup) (h : (a, b) ∈ l) : klookup a l = some b := by
  induction l with
  | nil => simp at h
  | cons p rest ih =>
    simp only [List.map_cons, List.nodup_cons] at hnd
    rcases List.mem_cons.mp h with h1 | h1
    · rw [← h1]
      simp [klookup]
    · have hpa : ¬ p.1 = a := by
        intro hc
        exact hnd.1 (hc ▸ (List.mem_map.mpr ⟨(a, b), h1, rfl⟩))
      simp only [klookup, if_neg hpa]
      exact ih hnd.2 h1

theorem klookup_eq_none {l : List (Endpoint × α)} {a : Endpoint} :
    klookup a l = none ↔ a ∉ l.map Prod.fst := by
  induction l with
  | nil => simp [klookup]
  | cons p rest ih =>
    by_cases hp : p.1 = a
    · simp [klookup, hp]
    · simp [klookup, hp, ih, Ne.symm hp]

/-- Environment of one scrape cycle (`async fn metrics`), passed in
explicitly: `now` is the `Instant::now()` recorded at the top of the
handler; `nowInsert` is the value of the later `Instant::now()` call used
when a newly discovered endpoint is inserted (in the source it is a fresh,
strictly later clock reading, not the recorded `now`); `broadcastResult` is
the map returned by `broadcast()` (empty if `broadcast()` failed); `recheck`
gives the outcome of the unicast recheck `timeout(RESPONSE_WAIT_TIME,
check_one(endpoint))` for each endpoint, where `none` covers both the error
and the timeout arm (the source treats both as `None`). -/
structure ScrapeInput where
  now : Nat
  nowInsert : Nat
  broadcastResult : List (Endpoint × Response)
  recheck : Endpoint → Option Response

/-- Result of one scrape cycle: the endpoint cache after eviction and
discovery, and the combined reading list.  The source's `combined` is a
`Vec<Response>`; the model keeps next to each pushed response the endpoint
it came from (in every push site of the source the originating endpoint is
in scope), so that per-endpoint uniqueness is statable. -/
structure CycleResult where
  cache : List (Endpoint × Nat)
  combined : List (Endpoint × Response)

/-- Source: the first loop of `metrics` — `for (endpoint, last_seen) in
endpoints.iter() { if let Some(response) = responses.remove(endpoint) {
combined.push(response); } else { rechecks.push(...); } }`.  Returns the
responses pushed to `combined`, the remaining `responses` map, and the
entries queued for a unicast recheck, in iteration order. -/
def processCache : List (Endpoint × Nat) → List (Endpoint × Response) →
    List (Endpoint × Response) × List (Endpoint × Response) × List (Endpoint × Nat)
  | [], responses => ([], responses, [])
  | p :: rest, responses =>
    match klookup p.1 responses with
    | some r =>
      match processCache rest (kerase p.1 responses) with
      | (combined, leftover, rechecks) => ((p.1, r) :: combined, leftover, rechecks)
    | none =>
      match processCache rest responses with
      | (combined, leftover, rechecks) => (combined, leftover, p :: rechecks)

/-- Source: the second loop of `metrics` — `for (endpoint, last_seen,
response) in rechecks { if let Some(response) = response {
combined.push(response); } else if now.duration_since(*last_seen) >
FORGET_TIMEOUT { remove.push(endpoint); } }`.  Returns the responses pushed
to `combined` and the endpoints pushed to `remove`. -/
def processRechecks (now : Nat) (f : Endpoint → Option Response) :
    List (Endpoint × Nat) → List (Endpoint × Response) × List Endpoint
  | [] => ([], [])
  | p :: rest =>
    match f p.1, processRechecks now f rest with
    | some r, (combined, remove) => ((p.1, r) :: combined, remove)
    | none, (combined, remove) =>
      if FORGET_TIMEOUT < now - p.2 then (combined, p.1 :: remove) else (combined, remove)

/-- Source: the discovery loop of `metrics` — `for (endpoint, response) in
responses { endpoints.insert(endpoint, Instant::now()); ... }` (the pushes
to `combined` are accounted for separately in `scrapeCycle`). -/
def insertAll (cache : List (Endpoint × Nat)) (leftover : List (Endpoint × Response))
    (t : Nat) : List (Endpoint × Nat) :=
  leftover.foldl (fun c p => kinsert c p.1 t) cache

/-- Source: `async fn metrics`, lines 82–152 — one reconciliation cycle over
a given starting cache.  The eviction loop `for endpoint in remove {
endpoints.remove(endpoint); }` is the `filter`, the discovery loop is
`insertAll`, and `combined` receives the broadcast-confirmed responses, the
successful recheck responses, and the newly discovered responses in source
push order.  (The model assumes no concurrent scrape mutates the shared map
between the snapshot and the second lock, which is the single-cycle setting
all the claims quantify over.) -/
def scrapeCycle (cache : List (Endpoint × Nat)) (inp : ScrapeInput) : CycleResult :=
  match processCache cache inp.broadcastResult with
  | (combined1, leftover, rechecks) =>
    match processRechecks inp.now inp.recheck rechecks with
    | (combined2, remove) =>
      ⟨insertAll (cache.filter (fun p => decide (p.1 ∉ remove))) leftover inp.nowInsert,
       combined1 ++ combined2 ++ leftover⟩

/-- Source: the receive loop of `async fn broadcast` projected onto the
payload axis — each received datagram is modelled by its sender and the
result of `from_slice(&decrypt(..))`, with `none` for a payload that fails
structured decoding.  A decode failure hits the `?` operator and aborts the
whole collection with `Err(InvalidData)`; a well-formed response is kept
iff `response.emeter.get_realtime.is_some()`. -/
def broadcastLoop : List (Endpoint × Option Response) → List (Endpoint × Response) →
    Except Unit (List (Endpoint × Response))
  | [], acc => .ok acc
  | (_, none) :: _, _ => .error ()
  | (addr, some r) :: rest, acc =>
    broadcastLoop rest (if r.emeter.get_realtime.isSome then kinsert acc addr r else acc)

/-- Source: `async fn broadcast`, as observed by `metrics` — the `responses`
map starts empty, and `metrics` replaces a failed collection by the empty
map (`unwrap_or_else`, logging the error). -/
def broadcastCollect (datagrams : List (Endpoint × Option Response)) :
    List (Endpoint × Response) :=
  ((broadcastLoop datagrams []).toOption).getD []

/-- Source: the receive loop of `async fn broadcast` projected onto the
timing axis — `while let Ok(Ok(..)) = timeout(RESPONSE_WAIT_TIME,
socket.recv_from(..)).await`: each `recv_from` gets a fresh 500 ms timeout,
so a datagram is received iff it arrives within 500 ms of the previous
receipt (`prev` is the arrival instant of the previous datagram, initially
the send instant, taken as 0).  Arguments are the arrival instants of the
reply datagrams in order; the result is the instants of the replies the
loop actually receives. -/
def collectWindow : Nat → List Nat → List Nat
  | _, [] => []
  | prev, t :: rest =>
    if t - prev < RESPONSE_WAIT_TIME then t :: collectWindow t rest else []

/-- Inter-arrival gap before the reply at index `i`: its arrival instant
minus the previous arrival instant (the send instant 0 for `i = 0`). -/
def gapAt (prev : Nat) (ts : List Nat) (i : Nat) : Nat :=
  ts.getD i 0 - (prev :: ts).getD i 0

/-- Total blocking time of the receive loop: the loop returns when one
`recv_from` call outlives its 500 ms timeout, i.e. 500 ms after the last
accepted reply (or after the send when no reply is accepted). -/
def broadcastElapsed (ts : List Nat) : Nat :=
  ((collectWindow 0 ts).getLast?).getD 0 + RESPONSE_WAIT_TIME

/-- Outcome of one HTTP request to `/metrics`: either a response with a
status code and a body, or a handler panic (no response is produced). -/
inductive HttpOutcome where
  | response (status : Nat) (body : String)
  | panicked
deriving DecidableEq

/-- Status code of an outcome, if a response was produced at all. -/
def statusOf : HttpOutcome → Option Nat
  | .response s _ => some s
  | .panicked => none

/-- Source: `async fn metrics`, lines 154–166 — after the reconciliation
cycle, `encode(&mut buffer, &registry)` serializes the registry built from
`combined`; the encoder is the opaque collaborator `enc` (`some body` on
success, `none` on failure).  On success the handler returns the body
(status 200); on failure the source calls `.expect("error encoding
prometheus data")`, i.e. panics — no response is built.  The cache produced
by the cycle is returned alongside to state what the shared map holds when
the handler finishes or panics. -/
def metrics (cache : List (Endpoint × Nat)) (inp : ScrapeInput)
    (enc : List (Endpoint × Response) → Option String) :
    HttpOutcome × List (Endpoint × Nat) :=
  match enc (scrapeCycle cache inp).combined with
  | some body => (.response 200 body, (scrapeCycle cache inp).cache)
  | none => (.panicked, (scrapeCycle cache inp).cache)

theorem kerase_eq_filter (e : Endpoint) (l : List (Endpoint × α)) :
    kerase e l = l.filter (fun p => decide (p.1 ≠ e)) := by
  induction l with
  | nil => rfl
  | cons q rest ih =>
    by_cases hq : q.1 = e
    · simp [kerase, hq, ih]
    · simp [kerase, hq, ih]

theorem processCache_combined (cache : List (Endpoint × Nat))
    (responses : List (Endpoint × Response)) (hK : (cache.map Prod.fst).Nodup) :
    (processCache cache responses).1 =
      cache.filterMap (fun p => (klookup p.1 responses).map (fun r => (p.1, r))) := by
  induction cache generalizing responses with
  | nil => rfl
  | cons p rest ih =>
    simp only [List.map_cons, List.nodup_cons] at hK
    have hcongr : ∀ q ∈ rest,
        ((klookup q.1 (kerase p.1 responses)).map (fun r => (q.1, r)) :
          Option (Endpoint × Response)) =
        (klookup q.1 responses).map (fun r => (q.1, r)) := by
      intro q hq
      have hne : q.1 ≠ p.1 := by
        intro hc
        exact hK.1 (hc ▸ List.mem_map.mpr ⟨q, hq, rfl⟩)
      rw [klookup_kerase_ne hne]
    cases hlk : klookup p.1 responses with
    | none =>
      rcases hpc : processCache rest responses with ⟨c, lf, rc⟩
      have ih2 := ih responses hK.2
      rw [hpc] at ih2
      simp only [processCache, hlk, hpc, List.filterMap_cons, Option.map_none']
      exact ih2
    | some r =>
      rcases hpc : processCache rest (kerase p.1 responses) with ⟨c, lf, rc⟩
      have ih2 := ih (kerase p.1 responses) hK.2
      rw [hpc] at ih2
      dsimp only at ih2
      simp only [processCache, hlk, hpc, List.filterMap_cons, Option.map_some']
      rw [ih2, List.filterMap_congr hcongr]

theorem processCache_leftover (cache : List (Endpoint × Nat))
    (responses : List (Endpoint × Response)) :
    (processCache cache responses).2.1 =
      responses.filter (fun q => decide (q.1 ∉ cache.map Prod.fst)) := by
  induction cache generalizing responses with
  | nil => simp [processCache]
  | cons p rest ih =>
    cases hlk : klookup p.1 responses with
    | none =>
      rcases hpc : processCache rest responses with ⟨c, lf, rc⟩
      have ih2 := ih responses
      rw [hpc] at ih2
      dsimp only at ih2
      simp only [processCache, hlk, hpc]
      rw [ih2]
      refine List.filter_congr ?_
      intro q hq
      have hne : q.1 ≠ p.1 := by
        intro hc
        exact (klookup_eq_none.mp hlk) (List.mem_map.mpr ⟨q, hq, hc⟩)
      simp [List.mem_cons, hne]
    | some r =>
      rcases hpc : processCache rest (kerase p.1 responses) with ⟨c, lf, rc⟩
      have ih2 := ih (kerase p.1 responses)
      rw [hpc] at ih2
      dsimp only at ih2
      simp only [processCache, hlk, hpc]
      rw [ih2, kerase_eq_filter, List.filter_filter]
      refine List.filter_congr ?_
      intro q hq
      by_cases hqp : q.1 = p.1 <;> simp [hqp, List.mem_cons, not_or, Bool.and_comm]

theorem processCache_rechecks (cache : List (Endpoint × Nat))
    (responses : List (Endpoint × Response)) (hK : (cache.map Prod.fst).Nodup) :
    (processCache cache responses).2.2 =
      cache.filter (fun p => (klookup p.1 responses).isNone) := by
  induction cache generalizing responses with
  | nil => rfl
  | cons p rest ih =>
    simp only [List.map_cons, List.nodup_cons] at hK
    cases hlk : klookup p.1 responses with
    | none =>
      rcases hpc : processCache rest responses with ⟨c, lf, rc⟩
      have ih2 := ih responses hK.2
      rw [hpc] at ih2
      dsimp only at ih2
      simp only [processCache, hlk, hpc]
      rw [List.filter_cons_of_pos (by simp [hlk]), ih2]
    | some r =>
      rcases hpc : processCache rest (kerase p.1 responses) with ⟨c, lf, rc⟩
      have ih2 := ih (kerase p.1 responses) hK.2
      rw [hpc] at ih2
      dsimp only at ih2
      simp only [processCache, hlk, hpc]
      rw [List.filter_cons_of_neg (by simp [hlk]), ih2]
      refine List.filter_congr ?_
      intro q hq
      have hne : q.1 ≠ p.1 := by
        intro hc
        exact hK.1 (hc ▸ List.mem_map.mpr ⟨q, hq, rfl⟩)
      rw [klookup_kerase_ne hne]

theorem processRechecks_combined (now : Nat) (f : Endpoint → Option Response)
    (l : List (Endpoint × Nat)) :
    (processRechecks now f l).1 =
      l.filterMap (fun p => (f p.1).map (fun r => (p.1, r))) := by
  induction l with
  | nil => rfl
  | cons p rest ih =>
    rcases hpr : processRechecks now f rest with ⟨c, rem⟩
    rw [hpr] at ih
    dsimp only at ih
    cases hf : f p.1 with
    | some r =>
      simp only [processRechecks, hf, hpr, List.filterMap_cons, Option.map_some']
      rw [ih]
    | none =>
      by_cases ht : FORGET_TIMEOUT < now - p.2
      · simp only [processRechecks, hf, hpr, List.filterMap_cons, Option.map_none',
          if_pos ht]
        exact ih
      · simp only [processRechecks, hf, hpr, List.filterMap_cons, Option.map_none',
          if_neg ht]
        exact ih

theorem processRechecks_remove (now : Nat) (f : Endpoint → Option Response)
    (l : List (Endpoint × Nat)) :
    (processRechecks now f l).2 =
      (l.filter (fun p => (f p.1).isNone && decide (FORGET_TIMEOUT < now - p.2))).map
        Prod.fst := by
  induction l with
  | nil => rfl
  | cons p rest ih =>
    rcases hpr : processRechecks now f rest with ⟨c, rem⟩
    rw [hpr] at ih
    dsimp only at ih
    cases hf : f p.1 with
    | some r =>
      simp only [processRechecks, hf, hpr, List.filter_cons, Option.isNone_some,
        Bool.false_and, Bool.false_eq_true, if_false]
      exact ih
    | none =>
      by_cases ht : FORGET_TIMEOUT < now - p.2
      · simp only [processRechecks, hf, hpr, List.filter_cons, Option.isNone_none,
          Bool.true_and, decide_eq_true_eq, if_pos ht, List.map_cons]
        rw [ih]
      · simp only [processRechecks, hf, hpr, List.filter_cons, Option.isNone_none,
          Bool.true_and, decide_eq_true_eq, if_neg ht]
        exact ih

theorem keys_kerase_sub {l : List (Endpoint × α)} {e a : Endpoint}
    (h : a ∈ (kerase e l).map Prod.fst) : a ∈ l.map Prod.fst := by
  rcases List.mem_map.mp h with ⟨p, hp, hpa⟩
  exact List.mem_map.mpr ⟨p, (mem_kerase.mp hp).1, hpa⟩

theorem mem_insertAll_of_notin {l : List (Endpoint × Response)} {a : Endpoint}
    (h : a ∉ l.map Prod.fst) (cache : List (Endpoint × Nat)) (t : Nat)
    (s : Nat) : (a, s) ∈ insertAll cache l t ↔ (a, s) ∈ cache := by
  induction l generalizing cache with
  | nil => simp [insertAll]
  | cons p rest ih =>
    have hrest : a ∉ rest.map Prod.fst := fun hc => h (List.mem_cons_of_mem _ hc)
    have hne : a ≠ p.1 := by
      intro hc
      exact h (by rw [hc, List.map_cons]; exact List.mem_cons_self _ _)
    simp only [insertAll, List.foldl_cons]
    rw [show (List.foldl (fun c q => kinsert c q.1 t) (kinsert cache p.1 t) rest) =
      insertAll (kinsert cache p.1 t) rest t from rfl, ih hrest]
    simp [mem_kinsert, Prod.ext_iff, hne]

theorem mem_insertAll_self {l : List (Endpoint × Response)} {a : Endpoint}
    (hnd : (l.map Prod.fst).Nodup) (h : a ∈ l.map Prod.fst)
    (cache : List (Endpoint × Nat)) (t : Nat) :
    (a, t) ∈ insertAll cache l t := by
  induction l generalizing cache with
  | nil => simp at h
  | cons p rest ih =>
    simp only [List.map_cons, List.nodup_cons] at hnd
    simp only [insertAll, List.foldl_cons]
    rw [List.map_cons] at h
    rcases List.mem_cons.mp h with h1 | h1
    · have hrest : a ∉ rest.map Prod.fst := by
        rw [h1]
        exact hnd.1
      rw [show (List.foldl (fun c q => kinsert c q.1 t) (kinsert cache p.1 t) rest) =
        insertAll (kinsert cache p.1 t) rest t from rfl,
        mem_insertAll_of_notin hrest]
      rw [h1]
      exact List.mem_cons_self _ _
    · exact ih hnd.2 h1 _

theorem mem_keys_insertAll {l : List (Endpoint × Response)} {a : Endpoint}
    {cache : List (Endpoint × Nat)} {t : Nat}
    (h : a ∈ (insertAll cache l t).map Prod.fst) :
    a ∈ l.map Prod.fst ∨ a ∈ cache.map Prod.fst := by
  induction l generalizing cache with
  | nil => exact Or.inr h
  | cons p rest ih =>
    simp only [insertAll, List.foldl_cons] at h
    rcases @ih (kinsert cache p.1 t) h with h1 | h1
    · exact Or.inl (List.mem_cons_of_mem _ h1)
    · rcases List.mem_map.mp h1 with ⟨q, hq, hqa⟩
      rcases mem_kinsert.mp hq with h2 | h2
      · left
        rw [List.map_cons, ← hqa, h2]
        exact List.mem_cons_self _ _
      · exact Or.inr (List.mem_map.mpr ⟨q, h2.1, hqa⟩)

theorem broadcastLoop_error (ds : List (Endpoint × Option Response))
    (h : ∃ p ∈ ds, p.2 = none) (acc : List (Endpoint × Response)) :
    broadcastLoop ds acc = .error () := by
  induction ds generalizing acc with
  | nil =>
    rcases h with ⟨p, hp, _⟩
    simp at hp
  | cons d rest ih =>
    rcases d with ⟨addr, pay⟩
    cases pay with
    | none => rfl
    | some r =>
      rcases h with ⟨p, hp, hnone⟩
      rcases List.mem_cons.mp hp with h1 | h1
      · rw [h1] at hnone
        simp at hnone
      · exact ih ⟨p, h1, hnone⟩ _

theorem mem_broadcastLoop {ds : List (Endpoint × Option Response)}
    {acc out : List (Endpoint × Response)} (hout : broadcastLoop ds acc = .ok out)
    {p : Endpoint × Response} (hp : p ∈ out) :
    p ∈ acc ∨ ((p.1, some p.2) ∈ ds ∧ p.2.emeter.get_realtime.isSome = true) := by
  induction ds generalizing acc with
  | nil =>
    left
    simp only [broadcastLoop, Except.ok.injEq] at hout
    rw [← hout] at hp
    exact hp
  | cons d rest ih =>
    rcases d with ⟨addr, pay⟩
    cases pay with
    | none => simp [broadcastLoop] at hout
    | some r =>
      by_cases hrt : r.emeter.get_realtime.isSome
      · have hstep : broadcastLoop rest (kinsert acc addr r) = .ok out := by
          simpa [broadcastLoop, hrt] using hout
        rcases ih hstep with h1 | h1
        · rcases mem_kinsert.mp h1 with h2 | h2
          · right
            constructor
            · rw [h2, List.mem_cons]
              exact Or.inl rfl
            · rw [h2]
              exact hrt
          · exact Or.inl h2.1
        · exact Or.inr ⟨List.mem_cons_of_mem _ h1.1, h1.2⟩
      · have hstep : broadcastLoop rest acc = .ok out := by
          simpa [broadcastLoop, hrt] using hout
        rcases ih hstep with h1 | h1
        · exact Or.inl h1
        · exact Or.inr ⟨List.mem_cons_of_mem _ h1.1, h1.2⟩

theorem mem_broadcastCollect {ds : List (Endpoint × Option Response)}
    {p : Endpoint × Response} (hp : p ∈ broadcastCollect ds) :
    (p.1, some p.2) ∈ ds ∧ p.2.emeter.get_realtime.isSome = true := by
  unfold broadcastCollect at hp
  cases hbl : broadcastLoop ds [] with
  | error e =>
    rw [hbl] at hp
    simp [Except.toOption] at hp
  | ok out =>
    rw [hbl] at hp
    simp only [Except.toOption, Option.getD_some] at hp
    rcases mem_broadcastLoop hbl hp with h | h
    · simp at h
    · exact h

theorem nodup_keys_eq {l : List (Endpoint × α)} (hnd : (l.map Prod.fst).Nodup)
    {a : Endpoint} {b c : α} (hb : (a, b) ∈ l) (hc : (a, c) ∈ l) : b = c := by
  have h1 := mem_klookup_of_nodup hnd hb
  have h2 := mem_klookup_of_nodup hnd hc
  rw [h1] at h2
  exact Option.some.inj h2

theorem filter_key_nil {l : List (Endpoint × α)} {e : Endpoint} (h : e ∉ l.map Prod.fst) :
    l.filter (fun p => decide (p.1 = e)) = [] := by
  induction l with
  | nil => rfl
  | cons p rest ih =>
    rw [List.map_cons] at h
    have hp : ¬ p.1 = e := fun hc => h (by rw [← hc]; exact List.mem_cons_self _ _)
    rw [List.filter_cons_of_neg (by simp [hp])]
    exact ih (fun hc => h (List.mem_cons_of_mem _ hc))

theorem filter_key_of_nodup {l : List (Endpoint × α)} (hnd : (l.map Prod.fst).Nodup)
    {e : Endpoint} {v : α} (h : (e, v) ∈ l) :
    l.filter (fun p => decide (p.1 = e)) = [(e, v)] := by
  induction l with
  | nil => simp at h
  | cons p rest ih =>
    simp only [List.map_cons, List.nodup_cons] at hnd
    rcases List.mem_cons.mp h with h1 | h1
    · have hp1 : p.1 = e := by rw [← h1]
      rw [List.filter_cons_of_pos (by simp [hp1])]
      have hrest : e ∉ rest.map Prod.fst := by
        rw [← hp1]
        exact hnd.1
      rw [filter_key_nil hrest, ← h1]
    · have hp1 : ¬ p.1 = e := by
        intro hcontra
        exact hnd.1 (hcontra ▸ List.mem_map.mpr ⟨(e, v), h1, rfl⟩)
      rw [List.filter_cons_of_neg (by simp [hp1])]
      exact ih hnd.2 h1

theorem filter_key_filterMap {β γ : Type} (l : List (Endpoint × β)) (g : Endpoint → Option γ)
    (e : Endpoint) :
    (l.filterMap (fun p => (g p.1).map (fun r => (p.1, r)))).filter
        (fun q => decide (q.1 = e)) =
      (l.filter (fun p => decide (p.1 = e))).filterMap
        (fun p => (g p.1).map (fun r => (p.1, r))) := by
  induction l with
  | nil => rfl
  | cons p rest ih =>
    cases hg : g p.1 with
    | none =>
      simp only [List.filterMap_cons, hg, Option.map_none']
      by_cases hpe : p.1 = e
      · rw [List.filter_cons_of_pos (by simp [hpe]), List.filterMap_cons]
        simp only [hg, Option.map_none']
        exact ih
      · rw [List.filter_cons_of_neg (by simp [hpe])]
        exact ih
    | some s =>
      simp only [List.filterMap_cons, hg, Option.map_some']
      by_cases hpe : p.1 = e
      · rw [List.filter_cons_of_pos (by simp [hpe]), List.filter_cons_of_pos (by simp [hpe]),
          List.filterMap_cons]
        simp only [hg, Option.map_some']
        rw [ih]
      · rw [List.filter_cons_of_neg (by simp [hpe]), List.filter_cons_of_neg (by simp [hpe])]
        exact ih

theorem keys_filterMap_keyed {β γ : Type} (l : List (Endpoint × β)) (g : Endpoint → Option γ) :
    (l.filterMap (fun p => (g p.1).map (fun r => (p.1, r)))).map Prod.fst =
      (l.filter (fun p => (g p.1).isSome)).map Prod.fst := by
  induction l with
  | nil => rfl
  | cons p rest ih =>
    cases hg : g p.1 with
    | none =>
      simp only [List.filterMap_cons, hg, Option.map_none']
      rw [List.filter_cons_of_neg (by simp [hg])]
      exact ih
    | some s =>
      simp only [List.filterMap_cons, hg, Option.map_some']
      rw [List.filter_cons_of_pos (by simp [hg]), List.map_cons, List.map_cons, ih]

theorem collectWindow_spec (ts : List Nat) (prev : Nat) :
    collectWindow prev ts = ts.take (collectWindow prev ts).length ∧
    (∀ i, i < (collectWindow prev ts).length → gapAt prev ts i < RESPONSE_WAIT_TIME) ∧
    ((collectWindow prev ts).length < ts.length →
      ¬ gapAt prev ts ((collectWindow prev ts).length) < RESPONSE_WAIT_TIME) := by
  induction ts generalizing prev with
  | nil =>
    refine ⟨rfl, fun i hi => absurd hi (by simp [collectWindow]), fun h => absurd h ?_⟩
    simp [collectWindow]
  | cons t rest ih =>
    by_cases hgap : t - prev < RESPONSE_WAIT_TIME
    · obtain ⟨ih1, ih2, ih3⟩ := ih t
      refine ⟨?_, ?_, ?_⟩
      · simp only [collectWindow, if_pos hgap, List.length_cons, List.take_succ_cons]
        rw [← ih1]
      · intro i hi
        simp only [collectWindow, if_pos hgap, List.length_cons] at hi
        cases i with
        | zero => simpa [gapAt] using hgap
        | succ n =>
          have hlt := ih2 n (Nat.lt_of_succ_lt_succ hi)
          simpa [gapAt] using hlt
      · intro hlen
        simp only [collectWindow, if_pos hgap, List.length_cons] at hlen ⊢
        have hb := ih3 (Nat.lt_of_succ_lt_succ hlen)
        simpa [gapAt] using hb
    · refine ⟨by simp [collectWindow, hgap], fun i hi => ?_, fun hlen => ?_⟩
      · simp [collectWindow, hgap] at hi
      · simp only [collectWindow, if_neg hgap, List.length_nil]
        simpa [gapAt] using hgap

/-- A well-formed response carrying a realtime reading (voltage 120 V). -/
def rtSome : GetRealtimeResponse := ⟨none, some 120, none, none, none, none, none, none⟩

/-- A well-formed decoded reply whose `emeter.get_realtime` is present. -/
def rGood : Response := ⟨⟨⟨"plug", "plugid"⟩⟩, ⟨some rtSome⟩⟩

/-- A well-formed decoded reply whose `emeter.get_realtime` is absent. -/
def rNoRealtime : Response := ⟨⟨⟨"bulb", "bulbid"⟩⟩, ⟨none⟩⟩

/-- C2 (counterexample): during one broadcast round in which a well-formed
reply from endpoint 1 arrives and then a malformed reply from endpoint 2
arrives, the collection aborts at the `?` operator and `metrics` falls back
to the empty map, so the returned collection does not contain the
well-formed reply — contradicting the claim that a malformed reply is
dropped by itself and every well-formed reply of the window is kept. -/
theorem c2_decode_abort_counterexample :
    broadcastCollect [(1, some rGood), (2, none)] = [] ∧
    (1, rGood) ∉ broadcastCollect [(1, some rGood), (2, none)] := by
  refine ⟨rfl, ?_⟩
  rw [show broadcastCollect [(1, some rGood), (2, none)] = [] from rfl]
  simp

/-- C2 (amended): a reply whose revealed payload fails structured decoding
aborts the whole broadcast collection (`broadcast` returns `Err`), and the
scrape then proceeds with an empty broadcast result set, discarding every
well-formed reply received in that window; the scrape itself is not
aborted. -/
theorem c2_decode_aborts_collection (ds : List (Endpoint × Option Response))
    (h : ∃ p ∈ ds, p.2 = none) :
    broadcastLoop ds [] = .error () ∧ broadcastCollect ds = [] := by
  have herr := broadcastLoop_error ds h []
  refine ⟨herr, ?_⟩
  simp [broadcastCollect, herr, Except.toOption]

/-- C2 witness: a round consisting of a single malformed datagram yields the
empty collection. -/
theorem c2_decode_aborts_collection_witness :
    broadcastCollect [((3 : Endpoint), (none : Option Response))] = [] :=
  (c2_decode_aborts_collection [(3, none)] ⟨(3, none), List.mem_cons_self _ _, rfl⟩).2

/-- C9 (counterexample): with replies arriving 400 ms and 800 ms after the
send, the source's loop gives each `recv_from` a fresh 500 ms timeout, so it
collects both replies — including the one arriving after the claimed single
500 ms window — and blocks for 1300 ms, longer than the claimed bound of one
wait window. -/
theorem c9_single_window_counterexample :
    collectWindow 0 [400, 800] = [400, 800] ∧
    (800 : Nat) ∈ collectWindow 0 [400, 800] ∧ ¬ ((800 : Nat) < RESPONSE_WAIT_TIME) ∧
    broadcastElapsed [400, 800] = 1300 ∧ RESPONSE_WAIT_TIME < broadcastElapsed [400, 800] := by
  refine ⟨rfl, ?_, by decide, rfl, by decide⟩
  rw [show collectWindow 0 [400, 800] = [400, 800] from rfl]
  simp

/-- C9 (amended): the broadcast receive loop restarts its 500 ms timeout
after every accepted reply: it accepts the longest prefix of the arrival
sequence in which every inter-arrival gap (measured from the send for the
first reply) is below 500 ms, and stops at the first gap of at least
500 ms — so the collection window slides and the total blocking time is
500 ms past the last accepted reply rather than one fixed window. -/
theorem c9_sliding_window (ts : List Nat) :
    collectWindow 0 ts = ts.take (collectWindow 0 ts).length ∧
    (∀ i, i < (collectWindow 0 ts).length → gapAt 0 ts i < RESPONSE_WAIT_TIME) ∧
    ((collectWindow 0 ts).length < ts.length →
      ¬ gapAt 0 ts ((collectWindow 0 ts).length) < RESPONSE_WAIT_TIME) :=
  collectWindow_spec ts 0

/-- C9 witness: in the arrival sequence 400 ms, 800 ms both gaps are below
500 ms, so the reply at 800 ms (outside a single window) is accepted. -/
theorem c9_sliding_window_witness :
    gapAt 0 [400, 800] 1 < RESPONSE_WAIT_TIME :=
  (c9_sliding_window [400, 800]).2.1 1 (by decide)

/-- C10: a broadcast reply that decodes but lacks `emeter.get_realtime`
fails the `is_some` check in `broadcast`, so its endpoint never enters the
broadcast result map; consequently (when that endpoint is not already
cached) the scrape cycle neither inserts it into the endpoint cache nor
includes any reading from it in the combined set. -/
theorem c10_missing_realtime_excluded (ds : List (Endpoint × Option Response))
    (addr : Endpoint) (cache : List (Endpoint × Nat)) (inp : ScrapeInput)
    (hK : (cache.map Prod.fst).Nodup)
    (hds : ∀ p ∈ ds, p.1 = addr → ∀ r, p.2 = some r → r.emeter.get_realtime = none)
    (hbr : inp.broadcastResult = broadcastCollect ds)
    (hc : addr ∉ cache.map Prod.fst) :
    addr ∉ (broadcastCollect ds).map Prod.fst ∧
    addr ∉ ((scrapeCycle cache inp).cache.map Prod.fst) ∧
    (∀ p ∈ (scrapeCycle cache inp).combined, p.1 ≠ addr) := by
  have hnotB : addr ∉ (broadcastCollect ds).map Prod.fst := by
    intro hmem
    rcases List.mem_map.mp hmem with ⟨p, hp, hpa⟩
    have hbc := mem_broadcastCollect hp
    have hnone := hds (p.1, some p.2) hbc.1 hpa p.2 rfl
    rw [hnone] at hbc
    simp at hbc
  have hnotBkeys : addr ∉ inp.broadcastResult.map Prod.fst := by
    rw [hbr]
    exact hnotB
  rcases hpc : processCache cache inp.broadcastResult with ⟨c1, lf, rc⟩
  rcases hpr : processRechecks inp.now inp.recheck rc with ⟨c2, rem⟩
  have hlf : lf = inp.broadcastResult.filter
      (fun q => decide (q.1 ∉ cache.map Prod.fst)) := by
    have := processCache_leftover cache inp.broadcastResult
    rw [hpc] at this
    exact this
  have hc1 : c1 = cache.filterMap
      (fun p => (klookup p.1 inp.broadcastResult).map (fun r => (p.1, r))) := by
    have := processCache_combined cache inp.broadcastResult hK
    rw [hpc] at this
    exact this
  have hrc : rc = cache.filter (fun p => (klookup p.1 inp.broadcastResult).isNone) := by
    have := processCache_rechecks cache inp.broadcastResult hK
    rw [hpc] at this
    exact this
  have hc2 : c2 = rc.filterMap (fun p => (inp.recheck p.1).map (fun r => (p.1, r))) := by
    have := processRechecks_combined inp.now inp.recheck rc
    rw [hpr] at this
    exact this
  have hlfkeys : addr ∉ lf.map Prod.fst := by
    intro hmem
    rcases List.mem_map.mp hmem with ⟨q, hq, hqa⟩
    rw [hlf] at hq
    exact hnotBkeys (List.mem_map.mpr ⟨q, (List.mem_filter.mp hq).1, hqa⟩)
  refine ⟨hnotB, ?_, ?_⟩
  · simp only [scrapeCycle, hpc, hpr]
    intro hmem
    rcases mem_keys_insertAll hmem with h1 | h1
    · exact hlfkeys h1
    · rcases List.mem_map.mp h1 with ⟨q, hq, hqa⟩
      exact hc (List.mem_map.mpr ⟨q, (List.mem_filter.mp hq).1, hqa⟩)
  · simp only [scrapeCycle, hpc, hpr]
    intro p hp hpa
    rcases List.mem_append.mp hp with hp12 | hp3
    · rcases List.mem_append.mp hp12 with hp1 | hp2
      · rw [hc1] at hp1
        rcases List.mem_filterMap.mp hp1 with ⟨q, hq, hfq⟩
        cases hklq : klookup q.1 inp.broadcastResult with
        | none => rw [hklq] at hfq; simp at hfq
        | some s =>
          rw [hklq] at hfq
          simp only [Option.map_some', Option.some.injEq] at hfq
          have : q.1 = addr := by rw [← hfq] at hpa; exact hpa
          exact hc (this ▸ List.mem_map.mpr ⟨q, hq, rfl⟩)
      · rw [hc2] at hp2
        rcases List.mem_filterMap.mp hp2 with ⟨q, hq, hfq⟩
        cases hrq : inp.recheck q.1 with
        | none => rw [hrq] at hfq; simp at hfq
        | some s =>
          rw [hrq] at hfq
          simp only [Option.map_some', Option.some.injEq] at hfq
          have hqaddr : q.1 = addr := by rw [← hfq] at hpa; exact hpa
          rw [hrc] at hq
          exact hc (hqaddr ▸ List.mem_map.mpr ⟨q, (List.mem_filter.mp hq).1, rfl⟩)
    · exact hlfkeys (hpa ▸ List.mem_map.mpr ⟨p, hp3, rfl⟩)

/-- Datagram list for the C10 witness: a single decodable reply without a
realtime section. -/
def dsC10 : List (Endpoint × Option Response) := [(5, some rNoRealtime)]

/-- Scrape input for the C10 witness. -/
def inpC10 : ScrapeInput := ⟨0, 0, broadcastCollect dsC10, fun _ => none⟩

/-- C10 witness: the device at endpoint 5, whose only reply lacks
`emeter.get_realtime`, is not inserted into the cache by the cycle. -/
theorem c10_missing_realtime_excluded_witness :
    (5 : Endpoint) ∉ ((scrapeCycle [] inpC10).cache.map Prod.fst) :=
  (c10_missing_realtime_excluded dsC10 5 [] inpC10 (by simp)
    (by
      intro p hp hpa r hr
      simp only [dsC10, List.mem_cons, List.not_mem_nil, or_false] at hp
      rw [hp] at hr
      simp only [Option.some.injEq] at hr
      rw [← hr]
      rfl)
    rfl (by simp)).2.1

/-- Scrape input with no broadcast replies and failing runtime rechecks. -/
def inpC4 : ScrapeInput := ⟨0, 0, [], fun _ => none⟩

/-- C4 (counterexample): when encoding fails, the handler does not produce a
500 response (or any response): the source calls `.expect(..)` on the
encoder result, which panics. -/
theorem c4_encode_failure_counterexample :
    (metrics [] inpC4 (fun _ => none)).1 = HttpOutcome.panicked ∧
    statusOf (metrics [] inpC4 (fun _ => none)).1 ≠ some 500 := by
  refine ⟨rfl, ?_⟩
  rw [show (metrics [] inpC4 (fun _ => none)).1 = HttpOutcome.panicked from rfl]
  simp [statusOf]

/-- C4 (amended): if encoding the final metrics body fails, the handler
panics instead of returning a 500 — that request produces no HTTP response —
and the endpoint cache entries are exactly those left by the reconciliation
steps (all cache mutations precede the encode call; note the panic unwinds
while the cache lock is held, poisoning it for later scrapes). -/
theorem c4_encode_failure_panics (cache : List (Endpoint × Nat)) (inp : ScrapeInput)
    (enc : List (Endpoint × Response) → Option String)
    (h : enc (scrapeCycle cache inp).combined = none) :
    metrics cache inp enc = (HttpOutcome.panicked, (scrapeCycle cache inp).cache) := by
  simp [metrics, h]

/-- C4 witness: a failing encoder on the empty scrape panics and leaves the
empty cache untouched. -/
theorem c4_encode_failure_panics_witness :
    metrics [] inpC4 (fun _ => none) =
      (HttpOutcome.panicked, (scrapeCycle [] inpC4).cache) :=
  c4_encode_failure_panics [] inpC4 (fun _ => none) rfl

/-- Scrape input for the C3 counterexample: the cycle runs exactly at
`T + FORGET_TIMEOUT` for an endpoint last seen at `T = 0`. -/
def inpC3 : ScrapeInput := ⟨FORGET_TIMEOUT, FORGET_TIMEOUT, [], fun _ => none⟩

/-- C3 (counterexample): an endpoint last touched at `T = 0` that fails its
recheck is still kept by the cycle whose recorded `now` equals
`T + FORGET_TIMEOUT` — the claim says any cycle with `now ≥ T + 30min`
removes it, but the source's comparison `duration_since(last_seen) >
FORGET_TIMEOUT` is strict. -/
theorem c3_boundary_counterexample :
    (scrapeCycle [(0, 0)] inpC3).cache = [(0, 0)] ∧
    (0 : Nat) + FORGET_TIMEOUT ≤ inpC3.now := by
  exact ⟨rfl, by decide⟩

/-- C3 (amended): an endpoint whose cache entry was last touched at `T`,
that fails its unicast recheck and does not appear in the broadcast result,
is kept (entry unchanged) by every cycle whose recorded `now` satisfies
`now ≤ T + 30min`, and removed by a cycle exactly when `now > T + 30min`
(strictly): eviction happens at the first cycle strictly after the
threshold, not at the threshold itself. -/
theorem c3_strict_eviction_boundary (cache : List (Endpoint × Nat))
    (inp : ScrapeInput) (e : Endpoint) (T : Nat)
    (hK : (cache.map Prod.fst).Nodup) (hmem : (e, T) ∈ cache)
    (hB : ∀ p ∈ inp.broadcastResult, p.1 ≠ e) (hrc : inp.recheck e = none) :
    (inp.now ≤ T + FORGET_TIMEOUT → (e, T) ∈ (scrapeCycle cache inp).cache) ∧
    (T + FORGET_TIMEOUT < inp.now → ∀ t, (e, t) ∉ (scrapeCycle cache inp).cache) := by
  have hlkB : klookup e inp.broadcastResult = none := by
    rw [klookup_eq_none]
    intro hmemB
    rcases List.mem_map.mp hmemB with ⟨q, hq, hqa⟩
    exact hB q hq hqa
  rcases hpc : processCache cache inp.broadcastResult with ⟨c1, lf, rc⟩
  rcases hpr : processRechecks inp.now inp.recheck rc with ⟨c2, rem⟩
  have hlf : lf = inp.broadcastResult.filter
      (fun q => decide (q.1 ∉ cache.map Prod.fst)) := by
    have := processCache_leftover cache inp.broadcastResult
    rw [hpc] at this
    exact this
  have hrcf : rc = cache.filter (fun p => (klookup p.1 inp.broadcastResult).isNone) := by
    have := processCache_rechecks cache inp.broadcastResult hK
    rw [hpc] at this
    exact this
  have hremf : rem = (rc.filter (fun p => (inp.recheck p.1).isNone &&
      decide (FORGET_TIMEOUT < inp.now - p.2))).map Prod.fst := by
    have := processRechecks_remove inp.now inp.recheck rc
    rw [hpr] at this
    exact this
  have helf : e ∉ lf.map Prod.fst := by
    intro hmemlf
    rcases List.mem_map.mp hmemlf with ⟨q, hq, hqa⟩
    rw [hlf] at hq
    exact hB q (List.mem_filter.mp hq).1 hqa
  have herc : (e, T) ∈ rc := by
    rw [hrcf]
    exact List.mem_filter.mpr ⟨hmem, by simp [hlkB]⟩
  constructor
  · intro hnow
    have henotrem : e ∉ rem := by
      rw [hremf]
      intro hmemrem
      rcases List.mem_map.mp hmemrem with ⟨q, hq, hqa⟩
      have hqrc := List.mem_filter.mp hq
      have hqcache : q ∈ cache := by
        rw [hrcf] at hqrc
        exact (List.mem_filter.mp hqrc.1).1
      have hq2 : q.2 = T := by
        have : (e, q.2) ∈ cache := by
          rw [← hqa]
          exact hqcache
        exact nodup_keys_eq hK this hmem
      have hcond := hqrc.2
      rw [hqa, hq2, hrc] at hcond
      simp only [Option.isNone_none, Bool.true_and, decide_eq_true_eq] at hcond
      omega
    simp only [scrapeCycle, hpc, hpr]
    rw [mem_insertAll_of_notin helf]
    exact List.mem_filter.mpr ⟨hmem, by simpa using henotrem⟩
  · intro hnow t
    have herem : e ∈ rem := by
      rw [hremf]
      refine List.mem_map.mpr ⟨(e, T), List.mem_filter.mpr ⟨herc, ?_⟩, rfl⟩
      simp only [hrc, Option.isNone_none, Bool.true_and, decide_eq_true_eq]
      omega
    simp only [scrapeCycle, hpc, hpr]
    rw [mem_insertAll_of_notin helf]
    intro hmemfilter
    have := (List.mem_filter.mp hmemfilter).2
    simp only [decide_eq_true_eq] at this
    exact this herem

/-- Scrape input for the C3 witness: the cycle runs at `now = 3`, well inside
the forget window of an endpoint last seen at `T = 0`. -/
def inpC3small : ScrapeInput := ⟨3, 3, [], fun _ => none⟩

/-- C3 witness: at `now = 3 ≤ 0 + FORGET_TIMEOUT` the failing endpoint is
kept with its timestamp unchanged. -/
theorem c3_strict_eviction_boundary_witness :
    ((0 : Endpoint), (0 : Nat)) ∈ (scrapeCycle [(0, 0)] inpC3small).cache :=
  (c3_strict_eviction_boundary [(0, 0)] inpC3small 0 0 (by simp)
    (List.mem_cons_self _ _) (by simp [inpC3small]) rfl).1 (by decide)

/-- C5: an endpoint in the cache snapshot that is absent from the broadcast
result and whose unicast recheck succeeds contributes its reading exactly
once to the combined set (the filter of the combined list by its endpoint is
exactly that one reading) and is not removed from the cache this cycle. -/
theorem c5_unicast_fallback (cache : List (Endpoint × Nat)) (inp : ScrapeInput)
    (e : Endpoint) (T : Nat) (r : Response)
    (hK : (cache.map Prod.fst).Nodup) (hmem : (e, T) ∈ cache)
    (hB : ∀ p ∈ inp.broadcastResult, p.1 ≠ e) (hrc : inp.recheck e = some r) :
    (scrapeCycle cache inp).combined.filter (fun p => decide (p.1 = e)) = [(e, r)] ∧
    (e, T) ∈ (scrapeCycle cache inp).cache := by
  have hlkB : klookup e inp.broadcastResult = none := by
    rw [klookup_eq_none]
    intro hmemB
    rcases List.mem_map.mp hmemB with ⟨q, hq, hqa⟩
    exact hB q hq hqa
  rcases hpc : processCache cache inp.broadcastResult with ⟨c1, lf, rc⟩
  rcases hpr : processRechecks inp.now inp.recheck rc with ⟨c2, rem⟩
  have hc1f : c1 = cache.filterMap
      (fun p => (klookup p.1 inp.broadcastResult).map (fun s => (p.1, s))) := by
    have := processCache_combined cache inp.broadcastResult hK
    rw [hpc] at this
    exact this
  have hlff : lf = inp.broadcastResult.filter
      (fun q => decide (q.1 ∉ cache.map Prod.fst)) := by
    have := processCache_leftover cache inp.broadcastResult
    rw [hpc] at this
    exact this
  have hrcf : rc = cache.filter (fun p => (klookup p.1 inp.broadcastResult).isNone) := by
    have := processCache_rechecks cache inp.broadcastResult hK
    rw [hpc] at this
    exact this
  have hc2f : c2 = rc.filterMap (fun p => (inp.recheck p.1).map (fun s => (p.1, s))) := by
    have := processRechecks_combined inp.now inp.recheck rc
    rw [hpr] at this
    exact this
  have hremf : rem = (rc.filter (fun p => (inp.recheck p.1).isNone &&
      decide (FORGET_TIMEOUT < inp.now - p.2))).map Prod.fst := by
    have := processRechecks_remove inp.now inp.recheck rc
    rw [hpr] at this
    exact this
  have helf : e ∉ lf.map Prod.fst := by
    intro hmemlf
    rcases List.mem_map.mp hmemlf with ⟨q, hq, hqa⟩
    rw [hlff] at hq
    exact hB q (List.mem_filter.mp hq).1 hqa
  have hrcnodup : (rc.map Prod.fst).Nodup := by
    rw [hrcf]
    exact List.Nodup.sublist (List.Sublist.map Prod.fst (List.filter_sublist _)) hK
  have hercm : (e, T) ∈ rc := by
    rw [hrcf]
    exact List.mem_filter.mpr ⟨hmem, by simp [hlkB]⟩
  constructor
  · simp only [scrapeCycle, hpc, hpr]
    rw [List.filter_append, List.filter_append]
    have h1 : c1.filter (fun p => decide (p.1 = e)) = [] := by
      have hfk := filter_key_filterMap cache (fun a => klookup a inp.broadcastResult) e
      rw [hc1f, hfk, filter_key_of_nodup hK hmem]
      simp [hlkB]
    have h2 : c2.filter (fun p => decide (p.1 = e)) = [(e, r)] := by
      have hfk := filter_key_filterMap rc inp.recheck e
      rw [hc2f, hfk, filter_key_of_nodup hrcnodup hercm]
      simp [hrc]
    have h3 : lf.filter (fun p => decide (p.1 = e)) = [] := filter_key_nil helf
    rw [h1, h2, h3]
    rfl
  · have henotrem : e ∉ rem := by
      rw [hremf]
      intro hmemrem
      rcases List.mem_map.mp hmemrem with ⟨q, hq, hqa⟩
      have hcond := (List.mem_filter.mp hq).2
      rw [hqa, hrc] at hcond
      simp at hcond
    simp only [scrapeCycle, hpc, hpr]
    rw [mem_insertAll_of_notin helf]
    exact List.mem_filter.mpr ⟨hmem, by simpa using henotrem⟩

/-- Scrape input for the C5 witness: empty broadcast, endpoint 4 answers its
unicast recheck. -/
def inpC5 : ScrapeInput := ⟨0, 0, [], fun a => if a = 4 then some rGood else none⟩

/-- C5 witness: the cached endpoint 4, missed by the broadcast but answering
its recheck, contributes exactly one reading and keeps its cache entry. -/
theorem c5_unicast_fallback_witness :
    (scrapeCycle [(4, 10)] inpC5).combined.filter (fun p => decide (p.1 = 4)) =
      [((4 : Endpoint), rGood)] ∧
    ((4 : Endpoint), (10 : Nat)) ∈ (scrapeCycle [(4, 10)] inpC5).cache :=
  c5_unicast_fallback [(4, 10)] inpC5 4 10 rGood (by simp) (List.mem_cons_self _ _)
    (by simp [inpC5]) rfl

/-- Scrape input for C6: endpoint 7 appears in the broadcast result; the
recorded `now` is 0 while the insertion-time clock reading is 1. -/
def inpC6 : ScrapeInput := ⟨0, 1, [(7, rGood)], fun _ => none⟩

/-- C6 (counterexample): the newly discovered endpoint 7 is inserted with
the fresh `Instant::now()` taken inside the discovery loop (here 1), not
with the cycle's recorded `now` (here 0), so no cache entry carries the
recorded `now`. -/
theorem c6_discovery_timestamp_counterexample :
    (scrapeCycle [] inpC6).cache = [(7, 1)] ∧
    (7, inpC6.now) ∉ (scrapeCycle [] inpC6).cache := by
  refine ⟨rfl, ?_⟩
  rw [show (scrapeCycle [] inpC6).cache = [(7, 1)] from rfl]
  decide

/-- C6 (amended): an endpoint present in the broadcast result but absent
from the cache snapshot is inserted into the cache with `last_seen` equal to
a fresh clock reading taken at insertion time (`Instant::now()` inside the
discovery loop, at or after the cycle's recorded `now`), and its reading is
included in the combined reading set of that cycle. -/
theorem c6_discovery_fresh_timestamp (cache : List (Endpoint × Nat)) (inp : ScrapeInput)
    (e : Endpoint) (r : Response)
    (hBnd : (inp.broadcastResult.map Prod.fst).Nodup)
    (hmem : (e, r) ∈ inp.broadcastResult)
    (hc : e ∉ cache.map Prod.fst) :
    (e, inp.nowInsert) ∈ (scrapeCycle cache inp).cache ∧
    (e, r) ∈ (scrapeCycle cache inp).combined := by
  rcases hpc : processCache cache inp.broadcastResult with ⟨c1, lf, rc⟩
  rcases hpr : processRechecks inp.now inp.recheck rc with ⟨c2, rem⟩
  have hlff : lf = inp.broadcastResult.filter
      (fun q => decide (q.1 ∉ cache.map Prod.fst)) := by
    have := processCache_leftover cache inp.broadcastResult
    rw [hpc] at this
    exact this
  have hmemlf : (e, r) ∈ lf := by
    rw [hlff]
    exact List.mem_filter.mpr ⟨hmem, by simpa using hc⟩
  have hkeys : e ∈ lf.map Prod.fst := List.mem_map.mpr ⟨(e, r), hmemlf, rfl⟩
  have hlfnodup : (lf.map Prod.fst).Nodup := by
    rw [hlff]
    exact List.Nodup.sublist (List.Sublist.map Prod.fst (List.filter_sublist _)) hBnd
  constructor
  · simp only [scrapeCycle, hpc, hpr]
    exact mem_insertAll_self hlfnodup hkeys _ _
  · simp only [scrapeCycle, hpc, hpr]
    exact List.mem_append.mpr (Or.inr hmemlf)

/-- C6 witness: the amended statement at the concrete discovery input — the
entry carries the insertion-time reading 1 and the reading is reported. -/
theorem c6_discovery_fresh_timestamp_witness :
    ((7 : Endpoint), (1 : Nat)) ∈ (scrapeCycle [] inpC6).cache ∧
    ((7 : Endpoint), rGood) ∈ (scrapeCycle [] inpC6).combined :=
  c6_discovery_fresh_timestamp [] inpC6 7 rGood (by simp [inpC6])
    (by simp [inpC6]) (by simp)

/-- C8: the combined reading set of one cycle is exactly the broadcast
result set united with the successful unicast-recheck results (a recheck
result is included iff its endpoint is cached, absent from the broadcast
map, and its recheck succeeded), and no endpoint contributes more than one
reading (the endpoints of the combined list are pairwise distinct). -/
theorem c8_combined_disjoint_union (cache : List (Endpoint × Nat)) (inp : ScrapeInput)
    (hK : (cache.map Prod.fst).Nodup) (hBnd : (inp.broadcastResult.map Prod.fst).Nodup) :
    (∀ p : Endpoint × Response, p ∈ (scrapeCycle cache inp).combined ↔
      (p ∈ inp.broadcastResult ∨
        (p.1 ∈ cache.map Prod.fst ∧ klookup p.1 inp.broadcastResult = none ∧
          inp.recheck p.1 = some p.2))) ∧
    ((scrapeCycle cache inp).combined.map Prod.fst).Nodup := by
  rcases hpc : processCache cache inp.broadcastResult with ⟨c1, lf, rc⟩
  rcases hpr : processRechecks inp.now inp.recheck rc with ⟨c2, rem⟩
  have hc1f : c1 = cache.filterMap
      (fun p => (klookup p.1 inp.broadcastResult).map (fun s => (p.1, s))) := by
    have := processCache_combined cache inp.broadcastResult hK
    rw [hpc] at this
    exact this
  have hlff : lf = inp.broadcastResult.filter
      (fun q => decide (q.1 ∉ cache.map Prod.fst)) := by
    have := processCache_leftover cache inp.broadcastResult
    rw [hpc] at this
    exact this
  have hrcf : rc = cache.filter (fun p => (klookup p.1 inp.broadcastResult).isNone) := by
    have := processCache_rechecks cache inp.broadcastResult hK
    rw [hpc] at this
    exact this
  have hc2f : c2 = rc.filterMap (fun p => (inp.recheck p.1).map (fun s => (p.1, s))) := by
    have := processRechecks_combined inp.now inp.recheck rc
    rw [hpr] at this
    exact this
  have hrcsub : List.Sublist rc cache := by
    rw [hrcf]
    exact List.filter_sublist _
  constructor
  · intro p
    obtain ⟨pa, pr⟩ := p
    simp only [scrapeCycle, hpc, hpr]
    constructor
    · intro hp
      rcases List.mem_append.mp hp with hp12 | hp3
      · rcases List.mem_append.mp hp12 with hp1 | hp2
        · rw [hc1f] at hp1
          rcases List.mem_filterMap.mp hp1 with ⟨q, hq, hfq⟩
          cases hkl : klookup q.1 inp.broadcastResult with
          | none => rw [hkl] at hfq; simp at hfq
          | some s =>
            rw [hkl] at hfq
            simp only [Option.map_some', Option.some.injEq] at hfq
            exact Or.inl (hfq ▸ klookup_eq_some_mem hkl)
        · rw [hc2f] at hp2
          rcases List.mem_filterMap.mp hp2 with ⟨q, hq, hfq⟩
          cases hrq : inp.recheck q.1 with
          | none => rw [hrq] at hfq; simp at hfq
          | some s =>
            rw [hrq] at hfq
            simp only [Option.map_some', Option.some.injEq] at hfq
            have hq1 : q.1 = pa := congrArg Prod.fst hfq
            have hs : s = pr := congrArg Prod.snd hfq
            rw [hrcf] at hq
            have hqc := List.mem_filter.mp hq
            refine Or.inr ⟨hq1 ▸ List.mem_map.mpr ⟨q, hqc.1, rfl⟩, ?_, ?_⟩
            · have hn := hqc.2
              rw [hq1] at hn
              simpa [Option.isNone_iff_eq_none] using hn
            · rw [← hq1, hrq, hs]
      · rw [hlff] at hp3
        exact Or.inl (List.mem_filter.mp hp3).1
    · intro h
      rcases h with hpB | ⟨hkc, hnone, hrcp⟩
      · by_cases hck : pa ∈ cache.map Prod.fst
        · rcases List.mem_map.mp hck with ⟨q, hq, hq1⟩
          have hlkp : klookup pa inp.broadcastResult = some pr :=
            mem_klookup_of_nodup hBnd hpB
          refine List.mem_append.mpr (Or.inl (List.mem_append.mpr (Or.inl ?_)))
          rw [hc1f]
          refine List.mem_filterMap.mpr ⟨q, hq, ?_⟩
          rw [hq1, hlkp]
          rfl
        · refine List.mem_append.mpr (Or.inr ?_)
          rw [hlff]
          exact List.mem_filter.mpr ⟨hpB, by simpa using hck⟩
      · rcases List.mem_map.mp hkc with ⟨q, hq, hq1⟩
        refine List.mem_append.mpr (Or.inl (List.mem_append.mpr (Or.inr ?_)))
        rw [hc2f]
        refine List.mem_filterMap.mpr ⟨q, ?_, ?_⟩
        · rw [hrcf]
          refine List.mem_filter.mpr ⟨hq, ?_⟩
          rw [hq1, hnone]
          rfl
        · rw [hq1, hrcp]
          rfl
  · simp only [scrapeCycle, hpc, hpr]
    rw [List.map_append, List.map_append]
    have hk1 : c1.map Prod.fst =
        (cache.filter (fun p => (klookup p.1 inp.broadcastResult).isSome)).map Prod.fst := by
      rw [hc1f]
      exact keys_filterMap_keyed cache (fun a => klookup a inp.broadcastResult)
    have hk2 : c2.map Prod.fst =
        (rc.filter (fun p => (inp.recheck p.1).isSome)).map Prod.fst := by
      rw [hc2f]
      exact keys_filterMap_keyed rc inp.recheck
    have hn1 : (c1.map Prod.fst).Nodup := by
      rw [hk1]
      exact List.Nodup.sublist (List.Sublist.map Prod.fst (List.filter_sublist _)) hK
    have hn2 : (c2.map Prod.fst).Nodup := by
      rw [hk2]
      exact List.Nodup.sublist
        (List.Sublist.map Prod.fst ((List.filter_sublist _).trans hrcsub)) hK
    have hn3 : (lf.map Prod.fst).Nodup := by
      rw [hlff]
      exact List.Nodup.sublist (List.Sublist.map Prod.fst (List.filter_sublist _)) hBnd
    have hmem1 : ∀ a, a ∈ c1.map Prod.fst →
        a ∈ cache.map Prod.fst ∧ (klookup a inp.broadcastResult).isSome = true := by
      intro a ha
      rw [hk1] at ha
      rcases List.mem_map.mp ha with ⟨q, hq, hq1⟩
      have hqf := List.mem_filter.mp hq
      refine ⟨List.mem_map.mpr ⟨q, hqf.1, hq1⟩, ?_⟩
      rw [← hq1]
      exact hqf.2
    have hmem2 : ∀ a, a ∈ c2.map Prod.fst →
        a ∈ cache.map Prod.fst ∧ (klookup a inp.broadcastResult).isNone = true := by
      intro a ha
      rw [hk2] at ha
      rcases List.mem_map.mp ha with ⟨q, hq, hq1⟩
      have hqrc : q ∈ rc := (List.mem_filter.mp hq).1
      rw [hrcf] at hqrc
      have hqc := List.mem_filter.mp hqrc
      refine ⟨List.mem_map.mpr ⟨q, hqc.1, hq1⟩, ?_⟩
      rw [← hq1]
      exact hqc.2
    have hmem3 : ∀ a, a ∈ lf.map Prod.fst → a ∉ cache.map Prod.fst := by
      intro a ha
      rw [hlff] at ha
      rcases List.mem_map.mp ha with ⟨q, hq, hq1⟩
      have hqf := (List.mem_filter.mp hq).2
      simp only [decide_eq_true_eq] at hqf
      rw [← hq1]
      exact hqf
    rw [List.nodup_append]
    refine ⟨?_, ?_, ?_⟩
    · rw [List.nodup_append]
      refine ⟨hn1, hn2, ?_⟩
      intro a ha1 ha2
      have h1 := (hmem1 a ha1).2
      have h2 := (hmem2 a ha2).2
      rw [Option.isNone_iff_eq_none] at h2
      rw [h2] at h1
      simp at h1
    · exact hn3
    · intro a ha12 ha3
      rcases List.mem_append.mp ha12 with ha1 | ha2
      · exact hmem3 a ha3 (hmem1 a ha1).1
      · exact hmem3 a ha3 (hmem2 a ha2).1

/-- Scrape input for the C8 witness: one cached endpoint missing from the
broadcast and failing its recheck, one newly discovered endpoint. -/
def inpC8 : ScrapeInput := ⟨0, 0, [(2, rGood)], fun _ => none⟩

/-- C8 witness: on a concrete cycle the discovered reading is in the
combined set and the combined endpoints are pairwise distinct. -/
theorem c8_combined_disjoint_union_witness :
    ((2 : Endpoint), rGood) ∈ (scrapeCycle [(1, 0)] inpC8).combined ∧
    ((scrapeCycle [(1, 0)] inpC8).combined.map Prod.fst).Nodup :=
  ⟨((c8_combined_disjoint_union [(1, 0)] inpC8 (by simp) (by simp [inpC8])).1
      (2, rGood)).mpr (Or.inl (by simp [inpC8])),
   (c8_combined_disjoint_union [(1, 0)] inpC8 (by simp) (by simp [inpC8])).2⟩
